import Mathlib

/-!
Verification of the db-yard reconciliation engine and process lifecycle core.

Shallow embedding of the TypeScript sources:
  * lib/governance.ts   (driver classification, pid-file, reconcile loop state)
  * lib/path.ts         (proxy prefixes derived from relative paths)
  * lib/serve/watch.ts  (port selection for respawns)
  * lib/spawn.ts        (spawn generator, killPID, tagged process index)
  * lib/materialize.ts  (spawned-state ledger scan)

JavaScript numbers that hold pids, ports and timestamps are modelled as Int
(`Number.isFinite` is then always true, which we note where it matters);
JavaScript Maps are modelled as association lists; side effects (file writes,
renames, removals, signals) are modelled as explicit effect traces returned by
each operation together with the updated state.
-/

namespace DbYard

/-! ## Association-list helpers (model of a JS Map keyed by string) -/

/-- Lookup in an association list, mirrors `Map.get`. -/
def alookup (l : List (String × α)) (k : String) : Option α :=
  match l with
  | [] => none
  | (k2, v) :: rest => if k2 = k then some v else alookup rest k

/-- Deletion, mirrors `Map.delete`. -/
def aerase (l : List (String × α)) (k : String) : List (String × α) :=
  l.filter (fun kv => !(kv.1 = k : Bool))

/-- Insert or replace, mirrors `Map.set` (key becomes present exactly once). -/
def aset (l : List (String × α)) (k : String) (v : α) : List (String × α) :=
  (k, v) :: aerase l k


/-! ## Character-list string utilities

The JavaScript string primitives used by the sources (`trim`,
`toLowerCase`, `endsWith`, `lastIndexOf`) are modelled on the character
list of the Lean string, so that every definition evaluates inside the
kernel.  `trim` covers the ASCII whitespace that can occur in the strings
at hand; `toLowerCase` agrees with `Char.toLower` on them. -/

/-- Whitespace as trimmed by `String.prototype.trim` (ASCII cases). -/
def isJsWs (c : Char) : Bool :=
  c = ' ' || c = '\t' || c = '\n' || c = '\r'

/-- `trim()` on a character list. -/
def trimChars (l : List Char) : List Char :=
  (((l.dropWhile isJsWs).reverse).dropWhile isJsWs).reverse

/-- `trim()`. -/
def jsTrim (s : String) : String := String.mk (trimChars s.data)

/-- `toLowerCase()`. -/
def jsToLower (s : String) : String := String.mk (s.data.map Char.toLower)

/-- `endsWith(sfx)`. -/
def strEndsWith (s sfx : String) : Bool := sfx.data.isSuffixOf s.data

/-- Index of the last occurrence of a character, mirrors `lastIndexOf`. -/
def lastIndexOfChar : List Char → Char → Option Nat
  | [], _ => none
  | a :: rest, c =>
      match lastIndexOfChar rest c with
      | some i => some (i + 1)
      | none => if a = c then some 0 else none

/-- Strip off any run of trailing slashes. -/
def dropTrailingSlashes (l : List Char) : List Char :=
  (l.reverse.dropWhile (fun c => c = '/')).reverse

/-! ## Sidecar configuration values

The `.db-yard` table stores heterogeneous scalars; `readDbYardConfig`
coerces them to strings, numbers or parsed JSON.  The driver choice only
inspects whether the value is a string, so the embedding keeps one
constructor per JS runtime type that matters. -/

inductive ConfigVal
  | str (s : String)
  | num (n : Int)
  | jsonish
deriving DecidableEq

/-- Sidecar configuration, the parsed `.db-yard` key/value table. -/
def DbYardConfig := List (String × ConfigVal)

inductive DriverChoice
  | rssd
  | sqlpage
deriving DecidableEq

/-! ## `chooseDriver` (lib/governance.ts:757-789)

`tableExists` shells out to sqlite; its observable result is a boolean per
table name, modelled as the oracle `hasTable`. -/

/-- Decision taken when the sidecar `spawn-driver` value is a non-empty
string, from the body of the first branch of `chooseDriver`. -/
def explicitDriverChoice (s : String) : Option DriverChoice :=
  let v := jsToLower (jsTrim s)
  if v = "surveilr" ∨ v = "rssd" ∨ v = "web-ui" ∨ v = "webui" then
    some DriverChoice.rssd
  else if v = "sqlpage" then some DriverChoice.sqlpage
  else none

/-- Decision taken by the two `tableExists` probes, from the tail of
`chooseDriver`. -/
def tableProbeChoice (hasTable : String → Bool) : Option DriverChoice :=
  if hasTable "uniform_resource" then some DriverChoice.rssd
  else if hasTable "sqlpage_files" then some DriverChoice.sqlpage
  else none

/-- `chooseDriver` from lib/governance.ts.  `cfg` is the parsed sidecar;
`hasTable` is the `tableExists` probe against the database file. -/
def chooseDriver (cfg : DbYardConfig) (hasTable : String → Bool) :
    Option DriverChoice :=
  match alookup cfg "spawn-driver" with
  | some (ConfigVal.str s) =>
      if jsTrim s ≠ "" then explicitDriverChoice s
      else tableProbeChoice hasTable
  | _ => tableProbeChoice hasTable

/-! ## Backoff state (lib/governance.ts:826-1033) -/

/-- `RESPAWN_BACKOFF_MS` constant. -/
def RESPAWN_BACKOFF_MS : Int := 15000

/-- `FAST_EXIT_MS` constant. -/
def FAST_EXIT_MS : Int := 750

structure SpawnFailure where
  lastFailAtMs : Int
  failCount : Int
deriving DecidableEq

/-- Failure map per source db file, `failuresByDb`. -/
def FailureMap := List (String × SpawnFailure)

/-- `shouldThrottle` from lib/governance.ts:1020-1024; `now` is the value
`nowMs()` returns at the check. -/
def shouldThrottle (failures : FailureMap) (now : Int) (dbPath : String) :
    Bool :=
  match alookup failures dbPath with
  | none => false
  | some f => now - f.lastFailAtMs < RESPAWN_BACKOFF_MS

/-- `noteFailure` from lib/governance.ts:1026-1033. -/
def noteFailure (failures : FailureMap) (now : Int) (dbPath : String) :
    FailureMap :=
  match alookup failures dbPath with
  | none => aset failures dbPath { lastFailAtMs := now, failCount := 1 }
  | some f =>
      aset failures dbPath
        { lastFailAtMs := now, failCount := f.failCount + 1 }

/-! ## Effect traces

Side effects performed by the orchestrator, in program order.  `stopPid`
stands for the whole `stopByPid` call (whose internal escalation logic is
the same code as `killPID` and is verified separately below). -/

inductive Effect
  | writeFile (path : String) (content : String)
  | renameFile (src : String) (dst : String)
  | removeFile (path : String)
  | stopPid (pid : Int)
  | mkdirp (dir : String)
deriving DecidableEq

/-- `normalizePath` from lib/governance.ts:79-81 (backslash to slash). -/
def normalizePath (p : String) : String :=
  String.mk (p.data.map (fun c => if c = '\\' then '/' else c))

/-- `safeBaseName` from lib/governance.ts:106-110. -/
def safeBaseName (path : String) : String :=
  let p := normalizePath path
  match lastIndexOfChar p.data '/' with
  | some i => String.mk (p.data.drop (i + 1))
  | none => p

/-- FNV-1a step: xor the next UTF-16 code unit, multiply by the FNV prime,
reduce to 32 bits (`Math.imul` plus the final `>>> 0`). -/
def fnv1a32Step (h : Nat) (c : Nat) : Nat :=
  ((h ^^^ c) * 16777619) % 4294967296

/-- 32-bit FNV-1a of the string, from `fnv1a32Hex` in lib/governance.ts. -/
def fnv1a32 (s : String) : Nat :=
  s.data.foldl (fun h c => fnv1a32Step h c.toNat) 0x811c9dc5

/-- `fnv1a32Hex`: lowercase hex, left-padded with zeroes to 8 characters. -/
def fnv1a32Hex (s : String) : String :=
  let hx := String.mk (Nat.toDigits 16 (fnv1a32 s))
  String.mk (List.replicate (8 - hx.length) '0') ++ hx

/-- `spawnedJsonPath` from lib/governance.ts:662-669. -/
def spawnedJsonPath (spawnedDir dbBasename instanceId : String) : String :=
  normalizePath spawnedDir ++ "/" ++ dbBasename ++ "." ++
    fnv1a32Hex instanceId ++ ".json"

/-- Operations of `writeSpawnedRecord` (lib/governance.ts:586-593): write
the serialized record to the sibling tmp path, then rename into place. -/
def writeSpawnedRecordOps (path content : String) : List Effect :=
  [Effect.writeFile (path ++ ".tmp") content,
   Effect.renameFile (path ++ ".tmp") path]

/-! ## The pid-file (`writeSpawnedPidsFile`, lib/governance.ts:401-422) -/

/-- First-occurrence dedup with an accumulator of already-seen values;
models spreading a JS `Set` built from the list. -/
def dedupFirstAux : List Int → List Int → List Int
  | _, [] => []
  | seen, p :: rest =>
      if p ∈ seen then dedupFirstAux seen rest
      else p :: dedupFirstAux (p :: seen) rest

/-- `[...new Set(l)]`. -/
def dedupFirst (l : List Int) : List Int := dedupFirstAux [] l

/-- Pid list actually serialized: positive pids (`Number.isFinite` always
holds for Int), deduplicated, sorted ascending. -/
def uniqueSortedPids (pids : List Int) : List Int :=
  List.insertionSort (fun a b => a ≤ b)
    (dedupFirst (pids.filter (fun p => 0 < p)))

/-- Content of `spawned-pids.txt`: the space-joined sorted unique pids. -/
def spawnedPidsContent (pids : List Int) : String :=
  String.intercalate " " ((uniqueSortedPids pids).map toString)

/-- Path of the pid-file under the session directory. -/
def spawnedPidsPath (spawnedDir : String) : String :=
  normalizePath spawnedDir ++ "/spawned-pids.txt"

/-- Result of one `writeSpawnedPidsFile` call: the file content afterwards
plus the write effects performed. -/
structure PidsFileWrite where
  content : String
  effects : List Effect
deriving DecidableEq

/-- `writeSpawnedPidsFile`: computes the content; if the previous content
(`prev`; none means the read failed) trim-equals it the file is untouched,
otherwise it writes the tmp file and renames it over the pid-file. -/
def writeSpawnedPidsFile (spawnedDir : String) (pids : List Int)
    (prev : Option String) : PidsFileWrite :=
  let path := spawnedPidsPath spawnedDir
  let content := spawnedPidsContent pids
  match prev with
  | some prevContent =>
      if jsTrim prevContent = jsTrim content then
        { content := prevContent, effects := [] }
      else
        { content := content,
          effects := [Effect.writeFile (path ++ ".tmp") content,
                      Effect.renameFile (path ++ ".tmp") path] }
  | none =>
      { content := content,
        effects := [Effect.writeFile (path ++ ".tmp") content,
                    Effect.renameFile (path ++ ".tmp") path] }

/-! ## Spawned records and the running set

The embedding keeps the projections of `SpawnedRecord` that the claims
observe (identity, basename, pid, owner token). -/

structure OwnerIdentity where
  ownerToken : String
deriving DecidableEq

structure SpawnedRecord where
  id : String
  dbBasename : String
  pid : Int
  owner : Option OwnerIdentity
deriving DecidableEq

/-- `r.record.owner?.ownerToken === ownerToken`. -/
def ownedByToken (ownerToken : String) (r : SpawnedRecord) : Bool :=
  match r.owner with
  | some o => o.ownerToken = ownerToken
  | none => false

/-- Pids of the running records this session supervises: owned ones, or
every record when foreign state is adopted (loop body of
`updatePidsFileFromRunning`). -/
def supervisedPids (ownerToken : String) (adoptForeignState : Bool)
    (running : List (String × SpawnedRecord)) : List Int :=
  running.filterMap (fun kv =>
    if ownedByToken ownerToken kv.2 || adoptForeignState then some kv.2.pid
    else none)

/-- `updatePidsFileFromRunning` (lib/governance.ts:842-856): collect the
pids of records owned by this session (or all of them when foreign state
is adopted) and hand them to `writeSpawnedPidsFile`. -/
def updatePidsFileFromRunning (spawnedDir ownerToken : String)
    (adoptForeignState : Bool) (running : List (String × SpawnedRecord))
    (prev : Option String) : PidsFileWrite :=
  writeSpawnedPidsFile spawnedDir
    (supervisedPids ownerToken adoptForeignState running) prev

/-! ## Reconciler state and the per-db operations -/

structure ChangeCounters where
  spawned : Int
  stopped : Int
  refreshed : Int
  skipped : Int
deriving DecidableEq

structure OrchState where
  running : List (String × SpawnedRecord)
  failures : FailureMap
  pidsFile : Option String
  counters : ChangeCounters

/-- Static configuration of one orchestrator session.  `renderRecord`
abstracts `JSON.stringify(rec, null, 2)`. -/
structure OrchCfg where
  spawnedDir : String
  ownerToken : String
  adoptForeignState : Bool
  renderRecord : SpawnedRecord → String

/-- `stopForDb` (lib/governance.ts:1208-1262).  Foreign records (owner
token mismatch) with adoption disabled are detached from the running set
and the pid-file is recomputed, but no signal is sent and no context file
is removed; otherwise the pid is stopped and the record file removed. -/
def stopForDb (cfg : OrchCfg) (dbAbsPath : String) (st : OrchState) :
    OrchState × List Effect :=
  match alookup st.running dbAbsPath with
  | none => (st, [])
  | some r =>
      if ¬ ownedByToken cfg.ownerToken r ∧ ¬ cfg.adoptForeignState then
        let running2 := aerase st.running dbAbsPath
        let w := updatePidsFileFromRunning cfg.spawnedDir cfg.ownerToken
          cfg.adoptForeignState running2 st.pidsFile
        ({ st with
            running := running2,
            pidsFile := some w.content,
            counters := { st.counters with
                          skipped := st.counters.skipped + 1 } },
         w.effects)
      else
        let running2 := aerase st.running dbAbsPath
        let w := updatePidsFileFromRunning cfg.spawnedDir cfg.ownerToken
          cfg.adoptForeignState running2 st.pidsFile
        ({ st with
            running := running2,
            pidsFile := some w.content,
            counters := { st.counters with
                          stopped := st.counters.stopped + 1 } },
         Effect.stopPid r.pid ::
           Effect.removeFile
             (spawnedJsonPath cfg.spawnedDir r.dbBasename r.id) ::
           w.effects)

/-- External observations consumed by one `ensureSpawnedForDb` call: the
clock, the stat result, liveness probes, the driver decision (the sqlite
probes run out of process) and the detached spawn result. -/
structure SpawnEnv where
  now : Int
  fileIsFile : Bool
  existingPidAlive : Bool
  dbChanged : Bool
  chosen : Option DriverChoice
  driverImplemented : Bool
  spawnResult : Option Int
  fastExitAlive : Bool
  instanceId : String

/-- Tail of `ensureSpawnedForDb` for a db with no live running record:
throttle check, driver choice, detached spawn, fast-exit guard, then
record write and pid-file update (lib/governance.ts:1048-1205). -/
def spawnFreshForDb (cfg : OrchCfg) (env : SpawnEnv) (dbAbsPath : String)
    (st : OrchState) : OrchState × List Effect :=
  if shouldThrottle st.failures env.now dbAbsPath then
    ({ st with counters := { st.counters with
                             skipped := st.counters.skipped + 1 } }, [])
  else
    match env.chosen with
    | none => (st, [])
    | some _ =>
        if ¬ env.driverImplemented then
          ({ st with counters := { st.counters with
                                   skipped := st.counters.skipped + 1 } },
           [])
        else
          match env.spawnResult with
          | none =>
              ({ st with
                  failures := noteFailure st.failures env.now dbAbsPath,
                  counters := { st.counters with
                                skipped := st.counters.skipped + 1 } },
               [])
          | some pid =>
              if ¬ env.fastExitAlive then
                ({ st with
                    failures := noteFailure st.failures env.now dbAbsPath,
                    counters := { st.counters with
                                  skipped := st.counters.skipped + 1 } },
                 [])
              else
                let newRec : SpawnedRecord :=
                  { id := env.instanceId,
                    dbBasename := safeBaseName dbAbsPath,
                    pid := pid,
                    owner := some { ownerToken := cfg.ownerToken } }
                let running2 := aset st.running dbAbsPath newRec
                let w := updatePidsFileFromRunning cfg.spawnedDir
                  cfg.ownerToken cfg.adoptForeignState running2 st.pidsFile
                ({ st with
                    running := running2,
                    pidsFile := some w.content,
                    counters := { st.counters with
                                  spawned := st.counters.spawned + 1 } },
                 writeSpawnedRecordOps
                     (spawnedJsonPath cfg.spawnedDir newRec.dbBasename
                       newRec.id)
                     (cfg.renderRecord newRec) ++ w.effects)

/-- `ensureSpawnedForDb` (lib/governance.ts:1035-1206): missing file does
nothing; a live existing record is refreshed in place when the db file
changed; otherwise the fresh-spawn path runs. -/
def ensureSpawnedForDb (cfg : OrchCfg) (env : SpawnEnv)
    (dbAbsPath : String) (st : OrchState) : OrchState × List Effect :=
  if ¬ env.fileIsFile then (st, [])
  else
    match alookup st.running dbAbsPath with
    | some r =>
        if env.existingPidAlive then
          if ¬ env.dbChanged then (st, [])
          else
            ({ st with counters := { st.counters with
                                     refreshed := st.counters.refreshed + 1 } },
             writeSpawnedRecordOps
               (spawnedJsonPath cfg.spawnedDir r.dbBasename r.id)
               (cfg.renderRecord r))
        else spawnFreshForDb cfg env dbAbsPath st
    | none => spawnFreshForDb cfg env dbAbsPath st

/-! ## Context writes by the spawn generator (lib/spawn.ts:542-558) -/

/-- Posix `dirname` as used by `ensureParentDir` (lib/spawn.ts:768-771). -/
def dirnameOf (p : String) : String :=
  let q := dropTrailingSlashes p.data
  match lastIndexOfChar q '/' with
  | none => "."
  | some 0 => "/"
  | some i =>
      match dropTrailingSlashes (q.take i) with
      | [] => "/"
      | d => String.mk d

/-- `ensureParentDir`: create the parent directory unless it is trivial. -/
def ensureParentDirOps (filePath : String) : List Effect :=
  let dir := dirnameOf filePath
  if dir ≠ "" ∧ dir ≠ "." ∧ dir ≠ "/" then [Effect.mkdirp dir] else []

/-- Write of the context manifest inside `spawn` (lib/spawn.ts:542-558):
the parent directory is ensured and the serialized context is then written
directly at the final path with a single `writeTextFile`. -/
def spawnContextWriteOps (ctxPath content : String) : List Effect :=
  ensureParentDirOps ctxPath ++ [Effect.writeFile ctxPath content]

/-! ## Port selection (lib/serve/watch.ts:150-167 and lib/spawn.ts) -/

/-- Projection of a ledger record consumed by `pickNextPortStart`: the
`context.listen.port` field and the `pid` of the scan entry. -/
structure LedgerListen where
  port : Int
  pid : Int
deriving DecidableEq

/-- Ports of ledger records whose pid is currently alive, from the loop in
`pickNextPortStart`. -/
def usedLivePorts (aliveNow : Int → Bool) (ledger : List LedgerListen) :
    List Int :=
  ledger.filterMap (fun st =>
    if 0 < st.port then
      if 0 < st.pid && aliveNow st.pid then some st.port else none
    else none)

/-- Fuelled form of the `while (used.has(port)) port++` loop. -/
def firstFreeAux (used : List Int) : Nat → Int → Int
  | 0, port => port
  | fuel + 1, port =>
      if port ∈ used then firstFreeAux used fuel (port + 1) else port

/-- `pickNextPortStart`: first port at or above the desired start that no
live ledger record uses.  The fuel `used.length + 1` always suffices (see
`firstFreeAux_spec` below). -/
def pickNextPortStart (desiredStart : Int) (aliveNow : Int → Bool)
    (ledger : List LedgerListen) : Int :=
  let used := usedLivePorts aliveNow ledger
  firstFreeAux used (used.length + 1) desiredStart

/-- Ports handed to the successive spawn attempts inside `spawn`
(lib/spawn.ts): the running `port` starts at `portStart` (line 348) and is
incremented only after a successful spawn (line 605).  `outcomes` records
which attempts succeeded. -/
def spawnPorts (port : Int) : List Bool → List Int
  | [] => []
  | ok :: rest => port :: spawnPorts (if ok then port + 1 else port) rest

/-! ## Ledger scan (`spawnedStates`, lib/materialize.ts:95-129)

The generator driver `encounters` lives in lib/discover.ts, which is not
among the provided sources (only its tests are); its error isolation is
modelled from the spec, see `spawnedStates` below. -/

/-- Parse outcome of one context file: `pidField` is `spawned.pid` as a
number when it is present and numeric (`Number(...)` of anything else is
NaN, which the source treats the same as missing). -/
structure CtxParse where
  pidField : Option Int
deriving DecidableEq

/-- One file under the scanned root: its path and its parse outcome
(`none` models invalid JSON). -/
structure ScanFile where
  path : String
  parsed : Option CtxParse
deriving DecidableEq

inductive ScanItem
  | entry (path : String) (pid : Int) (alive : Bool)
  | errorItem (path : String)
deriving DecidableEq

def scanItemPath : ScanItem → String
  | ScanItem.entry p _ _ => p
  | ScanItem.errorItem p => p

/-- Handler body from `spawnedStates`: non-`.context.json` files yield
nothing; invalid JSON or a missing/non-positive pid raises, which the scan
turns into an error item; otherwise the entry carries the pid and its
liveness. -/
def handleContextFile (aliveNow : Int → Bool) (f : ScanFile) :
    Option ScanItem :=
  if ¬ strEndsWith f.path ".context.json" then none
  else
    match f.parsed with
    | none => some (ScanItem.errorItem f.path)
    | some c =>
        match c.pidField with
        | none => some (ScanItem.errorItem f.path)
        | some pid =>
            if pid ≤ 0 then some (ScanItem.errorItem f.path)
            else some (ScanItem.entry f.path pid (aliveNow pid))

/-- Modelled from the spec: the `encounters` driver (lib/discover.ts, not
among the provided sources) walks every discovered file and collects a
per-file handler failure as an error item while continuing with the
remaining files ("Invalid JSON or missing PID yields an error item but
never aborts the scan").  `spawnedStates` is that driver specialized to
the handler above. -/
def spawnedStates (aliveNow : Int → Bool) (files : List ScanFile) :
    List ScanItem :=
  files.filterMap (handleContextFile aliveNow)

/-! ## `killPID` (lib/spawn.ts:291-329)

Every `Deno.kill` is wrapped in try/catch, so the call tree is modelled by
an environment of success booleans; the result records which signals were
attempted and how long the liveness poll slept. -/

inductive SigTarget
  | group
  | single
deriving DecidableEq

inductive Sig
  | sigterm
  | sigkill
deriving DecidableEq

/-- Poll iteration count of the `for (let i = 0; i < 20; i++)` loop. -/
def KILL_POLL_ITERS : Nat := 20

/-- Sleep per poll iteration, milliseconds. -/
def KILL_POLL_SLEEP_MS : Nat := 100

structure KillEnv where
  isWindows : Bool
  groupTermOk : Bool
  pidTermOk : Bool
  groupKillOk : Bool
  aliveAt : Nat → Bool

/-- First poll index at which the pid is observed dead, if any. -/
def firstDeadPollAux (aliveAt : Nat → Bool) : Nat → Nat → Option Nat
  | _, 0 => none
  | i, n + 1 =>
      if ¬ aliveAt i then some i else firstDeadPollAux aliveAt (i + 1) n

def firstDeadPoll (aliveAt : Nat → Bool) (n : Nat) : Option Nat :=
  firstDeadPollAux aliveAt 0 n

structure KillResult where
  attempts : List (SigTarget × Sig)
  sleptMs : Nat

/-- `killPID`: SIGTERM the process group (POSIX only); only if that throws
SIGTERM the pid, returning at once if that also throws; poll liveness up
to 20 times sleeping 100 ms between polls; if still alive escalate with
SIGKILL to the group and, only if that throws, to the pid. -/
def killPID (env : KillEnv) : KillResult :=
  let triedGroup := if ¬ env.isWindows then env.groupTermOk else false
  let pre : List (SigTarget × Sig) :=
    (if ¬ env.isWindows then [(SigTarget.group, Sig.sigterm)] else []) ++
      (if ¬ triedGroup then [(SigTarget.single, Sig.sigterm)] else [])
  if ¬ triedGroup ∧ ¬ env.pidTermOk then { attempts := pre, sleptMs := 0 }
  else
    match firstDeadPoll env.aliveAt KILL_POLL_ITERS with
    | some i => { attempts := pre, sleptMs := KILL_POLL_SLEEP_MS * i }
    | none =>
        let slept := KILL_POLL_SLEEP_MS * KILL_POLL_ITERS
        if ¬ env.isWindows then
          if env.groupKillOk then
            { attempts := pre ++ [(SigTarget.group, Sig.sigkill)],
              sleptMs := slept }
          else
            { attempts := pre ++ [(SigTarget.group, Sig.sigkill),
                                  (SigTarget.single, Sig.sigkill)],
              sleptMs := slept }
        else
          { attempts := pre ++ [(SigTarget.single, Sig.sigkill)],
            sleptMs := slept }

/-! ## Path and proxy-prefix utilities (lib/path.ts) -/

/-- `replaceAll("\\", "/")`. -/
def replaceBackslashes (l : List Char) : List Char :=
  l.map (fun c => if c = '\\' then '/' else c)

/-- `replaceAll(/\/+/g, "/")`: collapse runs of slashes, by dropping every
slash that is immediately followed by another one. -/
def collapseSlashes : List Char → List Char
  | [] => []
  | [c] => [c]
  | c :: d :: rest =>
      if c = '/' ∧ d = '/' then collapseSlashes (d :: rest)
      else c :: collapseSlashes (d :: rest)

/-- `normalizeSlash` from lib/path.ts:4-6. -/
def normalizeSlash (p : String) : String :=
  String.mk (collapseSlashes (replaceBackslashes p.data))

/-- `replaceAll(/^\.\//g, "")`: the anchored pattern matches at most once,
so a single leading "./" is removed. -/
def stripLeadingDotSlash : List Char → List Char
  | '.' :: '/' :: rest => rest
  | l => l

/-- Basename of the character list: last segment, trailing slashes
ignored, as in the scan of `extname`. -/
def baseNameChars (l : List Char) : List Char :=
  let q := dropTrailingSlashes l
  match lastIndexOfChar q '/' with
  | some i => q.drop (i + 1)
  | none => q

/-- Extension per `@std/path` `extname` (Node semantics): suffix of the
basename from its last dot, except that a dot in first position (hidden
file) and the special name ".." give no extension. -/
def extnameChars (l : List Char) : List Char :=
  let b := baseNameChars l
  match lastIndexOfChar b '.' with
  | none => []
  | some 0 => []
  | some i => if b = ['.', '.'] then [] else b.drop i

def extname (p : String) : String := String.mk (extnameChars p.data)

/-- `stripOneExt` from lib/path.ts:8-11 (`p.slice(0, -ext.length)`). -/
def stripOneExt (p : String) : String :=
  let ext := extname p
  if ext = "" then p
  else String.mk (p.data.take (p.data.length - ext.data.length))

/-- `proxyPrefixFromRel` from lib/path.ts:56-64. -/
def proxyPrefixFromRel (relFromRoot : String) : String :=
  let relNoExt := stripOneExt relFromRoot
  let clean := trimChars (stripLeadingDotSlash
    (collapseSlashes (replaceBackslashes relNoExt.data)))
  match clean with
  | [] => "/"
  | c :: rest =>
      if c = '/' then String.mk (collapseSlashes ('/' :: rest))
      else String.mk (collapseSlashes ('/' :: c :: rest))

/-! ## Tagged process identity (lib/spawn.ts:659-758) -/

/-- Identity fields read from a parsed context file:
`context.session.sessionId` and `context.service.id`. -/
structure TpCtxIds where
  sessionId : Option String
  serviceId : Option String
deriving DecidableEq

/-- Identity pick from lib/spawn.ts:713-724: a truthy (non-empty) context
field wins; otherwise the environment tag, when it is a string; otherwise
the empty initial value. -/
def tpPickId (ctxField : Option String) (envField : Option String) :
    String :=
  match ctxField with
  | some s =>
      if s ≠ "" then s
      else match envField with
           | some e => e
           | none => ""
  | none =>
      match envField with
      | some e => e
      | none => ""

/-- Session id yielded by `taggedProcesses` for one process, given the
parsed context (none when the context file was unreadable or invalid) and
the `DB_YARD_SESSION_ID` environment tag. -/
def tpSessionId (context : Option TpCtxIds) (envSessionId : Option String) :
    String :=
  tpPickId (context.bind (fun c => c.sessionId)) envSessionId

/-- Service id yielded by `taggedProcesses` for one process. -/
def tpServiceId (context : Option TpCtxIds) (envServiceId : Option String) :
    String :=
  tpPickId (context.bind (fun c => c.serviceId)) envServiceId

/-- No two adjacent slashes: the invariant produced by `collapseSlashes`. -/
def notDblSlash (a b : Char) : Prop := ¬ (a = '/' ∧ b = '/')

/-! ## Effect classifiers and concrete fixtures used in the statements -/

def isRenameEffect : Effect → Bool
  | Effect.renameFile _ _ => true
  | _ => false

def isStopEffect : Effect → Bool
  | Effect.stopPid _ => true
  | _ => false

def isRemoveEffect : Effect → Bool
  | Effect.removeFile _ => true
  | _ => false

/-- Does the effect write file content directly at path `p`? -/
def effectWritesAt (p : String) : Effect → Bool
  | Effect.writeFile q _ => q = p
  | _ => false

/-- Concrete session configuration for the counterexample runs. -/
def exCfg : OrchCfg :=
  { spawnedDir := "/led/sess", ownerToken := "tok",
    adoptForeignState := false, renderRecord := fun r => r.id }

/-- Environment of a successful spawn 20 s after an earlier failure: not
throttled any more, driver chosen, detached spawn returns pid 42, still
alive after the fast-exit window. -/
def exSuccessEnv : SpawnEnv :=
  { now := 20000, fileIsFile := true, existingPidAlive := false,
    dbChanged := false, chosen := some DriverChoice.sqlpage,
    driverImplemented := true, spawnResult := some 42,
    fastExitAlive := true, instanceId := "a.db" }

/-- State holding one stale failure record for `/c/a.db`. -/
def exFailState : OrchState :=
  { running := [],
    failures := [("/c/a.db", { lastFailAtMs := 0, failCount := 1 })],
    pidsFile := none,
    counters := { spawned := 0, stopped := 0, refreshed := 0,
                  skipped := 0 } }

/-!
# Theorems

Helper lemmas first, then one theorem per claim (witnesses and
counterexamples beside them).
-/

theorem alookup_aset (l : List (String × α)) (k : String) (v : α) :
    alookup (aset l k v) k = some v := by
  simp [aset, alookup]

theorem alookup_aerase (l : List (String × α)) (k : String) :
    alookup (aerase l k) k = none := by
  induction l with
  | nil => rfl
  | cons kv rest ih =>
      by_cases h : kv.1 = k
      · simpa [aerase, h] using ih
      · simpa [aerase, alookup, h] using ih

/-- C1: driver choice order.  A non-empty `spawn-driver` sidecar string
alone decides, independently of the table probes: the (trimmed,
lowercased) values surveilr / rssd / web-ui / webui choose the surveilr
driver, sqlpage chooses the sqlpage driver, any other value chooses none.
Otherwise the `uniform_resource` table chooses the surveilr driver, else
`sqlpage_files` chooses the sqlpage driver, else none is chosen. -/
theorem C1_chooseDriver_order (cfg : DbYardConfig)
    (hasTable : String → Bool) :
    (∀ s, alookup cfg "spawn-driver" = some (ConfigVal.str s) →
      jsTrim s ≠ "" →
      chooseDriver cfg hasTable = explicitDriverChoice s ∧
      ((jsToLower (jsTrim s) = "surveilr" ∨ jsToLower (jsTrim s) = "rssd" ∨
        jsToLower (jsTrim s) = "web-ui" ∨ jsToLower (jsTrim s) = "webui") →
        chooseDriver cfg hasTable = some DriverChoice.rssd) ∧
      (jsToLower (jsTrim s) = "sqlpage" →
        chooseDriver cfg hasTable = some DriverChoice.sqlpage) ∧
      (¬ (jsToLower (jsTrim s) = "surveilr" ∨ jsToLower (jsTrim s) = "rssd" ∨
          jsToLower (jsTrim s) = "web-ui" ∨ jsToLower (jsTrim s) = "webui" ∨
          jsToLower (jsTrim s) = "sqlpage") →
        chooseDriver cfg hasTable = none)) ∧
    ((∀ s, alookup cfg "spawn-driver" = some (ConfigVal.str s) →
        jsTrim s = "") →
      chooseDriver cfg hasTable =
        (if hasTable "uniform_resource" then some DriverChoice.rssd
         else if hasTable "sqlpage_files" then some DriverChoice.sqlpage
         else none)) := by
  constructor
  · intro s hs hne
    have hdef : chooseDriver cfg hasTable = explicitDriverChoice s := by
      simp [chooseDriver, hs, hne]
    refine ⟨hdef, ?_, ?_, ?_⟩
    · intro hv
      rw [hdef]
      rcases hv with h | h | h | h <;> simp [explicitDriverChoice, h]
    · intro hv
      rw [hdef]
      simp [explicitDriverChoice, hv]
    · intro hv
      push_neg at hv
      rw [hdef]
      simp [explicitDriverChoice, hv.1, hv.2.1, hv.2.2.1, hv.2.2.2.1,
        hv.2.2.2.2]
  · intro hemp
    unfold chooseDriver
    cases hcv : alookup cfg "spawn-driver" with
    | none => simp [tableProbeChoice]
    | some v =>
        cases v with
        | str s =>
            have := hemp s hcv
            simp [this, tableProbeChoice]
        | num n => simp [tableProbeChoice]
        | jsonish => simp [tableProbeChoice]

/-- Witness for C1: an explicit sidecar value " WebUI " selects the
surveilr driver even though no probe would, and with no sidecar entry the
`sqlpage_files` probe selects the sqlpage driver. -/
theorem C1_chooseDriver_order_witness :
    chooseDriver [("spawn-driver", ConfigVal.str " WebUI ")]
        (fun _ => false) = some DriverChoice.rssd ∧
    chooseDriver [] (fun t => t = "sqlpage_files") =
      some DriverChoice.sqlpage := by
  constructor
  · exact ((C1_chooseDriver_order
      [("spawn-driver", ConfigVal.str " WebUI ")] (fun _ => false)).1
      " WebUI " (by decide) (by decide)).2.1 (by decide)
  · have h := (C1_chooseDriver_order [] (fun t => t = "sqlpage_files")).2
      (by intro s hs; cases hs)
    simpa using h

theorem mem_dedupFirstAux (x : Int) :
    ∀ (l seen : List Int),
      x ∈ dedupFirstAux seen l ↔ x ∈ l ∧ x ∉ seen := by
  intro l
  induction l with
  | nil => intro seen; simp [dedupFirstAux]
  | cons p rest ih =>
      intro seen
      by_cases hp : p ∈ seen
      · simp only [dedupFirstAux, if_pos hp]
        rw [ih seen]
        constructor
        · rintro ⟨hx, hxs⟩; exact ⟨List.mem_cons_of_mem _ hx, hxs⟩
        · rintro ⟨hx, hxs⟩
          rcases List.mem_cons.mp hx with h | h
          · exact absurd (h ▸ hp) hxs
          · exact ⟨h, hxs⟩
      · simp only [dedupFirstAux, if_neg hp]
        rw [List.mem_cons, ih (p :: seen)]
        constructor
        · rintro (h | ⟨hx, hxs⟩)
          · exact ⟨h ▸ List.mem_cons_self p rest, h ▸ hp⟩
          · exact ⟨List.mem_cons_of_mem _ hx,
              fun hs => hxs (List.mem_cons_of_mem _ hs)⟩
        · rintro ⟨hx, hxs⟩
          by_cases hxp : x = p
          · exact Or.inl hxp
          · rcases List.mem_cons.mp hx with h | h
            · exact absurd h hxp
            · exact Or.inr ⟨h, by
                intro hs
                rcases List.mem_cons.mp hs with h2 | h2
                · exact hxp h2
                · exact hxs h2⟩

theorem nodup_dedupFirstAux :
    ∀ (l seen : List Int), (dedupFirstAux seen l).Nodup := by
  intro l
  induction l with
  | nil => intro seen; simp [dedupFirstAux]
  | cons p rest ih =>
      intro seen
      by_cases hp : p ∈ seen
      · simpa [dedupFirstAux, if_pos hp] using ih seen
      · simp only [dedupFirstAux, if_neg hp]
        refine List.nodup_cons.mpr ⟨?_, ih (p :: seen)⟩
        intro hmem
        exact ((mem_dedupFirstAux p rest (p :: seen)).mp hmem).2
          (List.mem_cons_self p seen)

theorem mem_dedupFirst (x : Int) (l : List Int) :
    x ∈ dedupFirst l ↔ x ∈ l := by
  rw [dedupFirst, mem_dedupFirstAux]
  simp

theorem uniqueSortedPids_sorted (pids : List Int) :
    List.Sorted (fun a b => a ≤ b) (uniqueSortedPids pids) :=
  List.sorted_insertionSort _ _

theorem uniqueSortedPids_perm (pids : List Int) :
    List.Perm (uniqueSortedPids pids)
      (dedupFirst (pids.filter (fun p => 0 < p))) :=
  List.perm_insertionSort _ _

theorem uniqueSortedPids_nodup (pids : List Int) :
    (uniqueSortedPids pids).Nodup :=
  (uniqueSortedPids_perm pids).nodup_iff.mpr (nodup_dedupFirstAux _ [])

theorem mem_uniqueSortedPids (x : Int) (pids : List Int) :
    x ∈ uniqueSortedPids pids ↔ x ∈ pids ∧ 0 < x := by
  rw [(uniqueSortedPids_perm pids).mem_iff, mem_dedupFirst]
  simp

/-- Effects of a pid-file write: nothing, or exactly the tmp-write plus
the rename. -/
theorem writeSpawnedPidsFile_effects (spawnedDir : String)
    (pids : List Int) (prev : Option String) :
    (writeSpawnedPidsFile spawnedDir pids prev).effects = [] ∨
    (writeSpawnedPidsFile spawnedDir pids prev).effects =
      [Effect.writeFile (spawnedPidsPath spawnedDir ++ ".tmp")
         (spawnedPidsContent pids),
       Effect.renameFile (spawnedPidsPath spawnedDir ++ ".tmp")
         (spawnedPidsPath spawnedDir)] := by
  cases prev with
  | none => right; rfl
  | some prevContent =>
      by_cases h : jsTrim prevContent = jsTrim (spawnedPidsContent pids)
      · left; simp [writeSpawnedPidsFile, h]
      · right; simp [writeSpawnedPidsFile, h]

/-- The pid-file content after a write always trim-equals the canonical
serialization of the supplied pids. -/
theorem writeSpawnedPidsFile_content_trim (spawnedDir : String)
    (pids : List Int) (prev : Option String) :
    jsTrim (writeSpawnedPidsFile spawnedDir pids prev).content =
      jsTrim (spawnedPidsContent pids) := by
  cases prev with
  | none => rfl
  | some prevContent =>
      by_cases h : jsTrim prevContent = jsTrim (spawnedPidsContent pids)
      · simp [writeSpawnedPidsFile, h]
      · simp [writeSpawnedPidsFile, h]

/-- C4: every write of `spawned-pids.txt` goes through a `.tmp` write
followed by a rename and carries exactly the space-joined ascending
deduplicated list of the supervised pids; equal content causes no write
at all. -/
theorem C4_pidsFile_write (spawnedDir ownerToken : String) (adopt : Bool)
    (running : List (String × SpawnedRecord)) (prev : Option String) :
    (List.Sorted (fun a b => a ≤ b)
        (uniqueSortedPids (supervisedPids ownerToken adopt running)) ∧
     (uniqueSortedPids (supervisedPids ownerToken adopt running)).Nodup ∧
     (∀ p, p ∈ uniqueSortedPids (supervisedPids ownerToken adopt running) ↔
        p ∈ supervisedPids ownerToken adopt running ∧ 0 < p) ∧
     spawnedPidsContent (supervisedPids ownerToken adopt running) =
       String.intercalate " "
         ((uniqueSortedPids
             (supervisedPids ownerToken adopt running)).map toString)) ∧
    ((∃ prevC, prev = some prevC ∧
        jsTrim prevC =
          jsTrim (spawnedPidsContent
            (supervisedPids ownerToken adopt running))) →
      (updatePidsFileFromRunning spawnedDir ownerToken adopt running
          prev).effects = []) ∧
    ((∀ prevC, prev = some prevC →
        jsTrim prevC ≠
          jsTrim (spawnedPidsContent
            (supervisedPids ownerToken adopt running))) →
      (updatePidsFileFromRunning spawnedDir ownerToken adopt running
          prev).effects =
        [Effect.writeFile (spawnedPidsPath spawnedDir ++ ".tmp")
           (spawnedPidsContent (supervisedPids ownerToken adopt running)),
         Effect.renameFile (spawnedPidsPath spawnedDir ++ ".tmp")
           (spawnedPidsPath spawnedDir)] ∧
      (updatePidsFileFromRunning spawnedDir ownerToken adopt running
          prev).content =
        spawnedPidsContent (supervisedPids ownerToken adopt running)) := by
  refine ⟨⟨uniqueSortedPids_sorted _, uniqueSortedPids_nodup _,
    fun p => mem_uniqueSortedPids p _, rfl⟩, ?_, ?_⟩
  · rintro ⟨prevC, rfl, htrim⟩
    simp [updatePidsFileFromRunning, writeSpawnedPidsFile, htrim]
  · intro hne
    cases prev with
    | none => exact ⟨rfl, rfl⟩
    | some prevC =>
        have h := hne prevC rfl
        constructor
        · simp [updatePidsFileFromRunning, writeSpawnedPidsFile, h]
        · simp [updatePidsFileFromRunning, writeSpawnedPidsFile, h]

/-- Witness for C4: one owned record with pid 7 and a stale pid-file
"42": the write replaces it with "7" through the tmp-and-rename pair, and
a pid-file already reading "7" is untouched. -/
theorem C4_pidsFile_write_witness :
    (updatePidsFileFromRunning "/led/s" "tok" false
        [("/c/a.db",
          { id := "a", dbBasename := "a.db", pid := 7,
            owner := some { ownerToken := "tok" } })]
        (some "42")).effects =
      [Effect.writeFile "/led/s/spawned-pids.txt.tmp" "7",
       Effect.renameFile "/led/s/spawned-pids.txt.tmp"
         "/led/s/spawned-pids.txt"] ∧
    (updatePidsFileFromRunning "/led/s" "tok" false
        [("/c/a.db",
          { id := "a", dbBasename := "a.db", pid := 7,
            owner := some { ownerToken := "tok" } })]
        (some "7")).effects = [] := by
  constructor
  · have h := (C4_pidsFile_write "/led/s" "tok" false
      [("/c/a.db",
        { id := "a", dbBasename := "a.db", pid := 7,
          owner := some { ownerToken := "tok" } })] (some "42")).2.2
      (by intro prevC hp hq; cases hp; revert hq; decide)
    exact h.1.trans (by decide)
  · exact (C4_pidsFile_write "/led/s" "tok" false
      [("/c/a.db",
        { id := "a", dbBasename := "a.db", pid := 7,
          owner := some { ownerToken := "tok" } })] (some "7")).2.1
      ⟨"7", rfl, by decide⟩

/-- C2: a running record whose owner token differs from the session token
is, with foreign-state adoption disabled, removed from the running set by
`stopForDb`, the pid-file is brought to the content derived from the
remaining supervised records, and the effect trace carries no signal to
the recorded pid and no file removal. -/
theorem C2_stopForDb_foreign (cfg : OrchCfg) (db : String) (st : OrchState)
    (r : SpawnedRecord)
    (hlook : alookup st.running db = some r)
    (hforeign : ownedByToken cfg.ownerToken r = false)
    (hadopt : cfg.adoptForeignState = false) :
    (stopForDb cfg db st).1.running = aerase st.running db ∧
    alookup (stopForDb cfg db st).1.running db = none ∧
    (∀ e ∈ (stopForDb cfg db st).2, isStopEffect e = false) ∧
    (∀ e ∈ (stopForDb cfg db st).2, isRemoveEffect e = false) ∧
    (stopForDb cfg db st).1.pidsFile.map jsTrim =
      some (jsTrim (spawnedPidsContent
        (supervisedPids cfg.ownerToken cfg.adoptForeignState
          (aerase st.running db)))) := by
  have hres : stopForDb cfg db st =
      ({ st with
          running := aerase st.running db,
          pidsFile := some (updatePidsFileFromRunning cfg.spawnedDir
            cfg.ownerToken cfg.adoptForeignState (aerase st.running db)
            st.pidsFile).content,
          counters := { st.counters with
                        skipped := st.counters.skipped + 1 } },
       (updatePidsFileFromRunning cfg.spawnedDir cfg.ownerToken
          cfg.adoptForeignState (aerase st.running db) st.pidsFile).effects)
      := by
    simp [stopForDb, hlook, hforeign, hadopt]
  rw [hres]
  refine ⟨rfl, alookup_aerase _ _, ?_, ?_, ?_⟩
  · intro e he
    rcases writeSpawnedPidsFile_effects cfg.spawnedDir
        (supervisedPids cfg.ownerToken cfg.adoptForeignState
          (aerase st.running db)) st.pidsFile with heff | heff
    · rw [updatePidsFileFromRunning, heff] at he
      cases he
    · rw [updatePidsFileFromRunning, heff] at he
      simp only [List.mem_cons, List.not_mem_nil, or_false] at he
      rcases he with rfl | rfl
      · rfl
      · rfl
  · intro e he
    rcases writeSpawnedPidsFile_effects cfg.spawnedDir
        (supervisedPids cfg.ownerToken cfg.adoptForeignState
          (aerase st.running db)) st.pidsFile with heff | heff
    · rw [updatePidsFileFromRunning, heff] at he
      cases he
    · rw [updatePidsFileFromRunning, heff] at he
      simp only [List.mem_cons, List.not_mem_nil, or_false] at he
      rcases he with rfl | rfl
      · rfl
      · rfl
  · exact congrArg some (writeSpawnedPidsFile_content_trim _ _ _)

/-- Witness for C2: a session with token "tok" detaches the foreign
record (owner token "other", pid 99) for `/c/f.db`: the running set loses
the record, no stop and no removal are emitted, and the pid-file ends up
empty. -/
theorem C2_stopForDb_foreign_witness :
    (stopForDb exCfg "/c/f.db"
        { running := [("/c/f.db",
            { id := "f", dbBasename := "f.db", pid := 99,
              owner := some { ownerToken := "other" } })],
          failures := [], pidsFile := none,
          counters := { spawned := 0, stopped := 0, refreshed := 0,
                        skipped := 0 } }).1.running = [] ∧
    (∀ e ∈ (stopForDb exCfg "/c/f.db"
        { running := [("/c/f.db",
            { id := "f", dbBasename := "f.db", pid := 99,
              owner := some { ownerToken := "other" } })],
          failures := [], pidsFile := none,
          counters := { spawned := 0, stopped := 0, refreshed := 0,
                        skipped := 0 } }).2, isStopEffect e = false) := by
  have h := C2_stopForDb_foreign exCfg "/c/f.db"
    { running := [("/c/f.db",
        { id := "f", dbBasename := "f.db", pid := 99,
          owner := some { ownerToken := "other" } })],
      failures := [], pidsFile := none,
      counters := { spawned := 0, stopped := 0, refreshed := 0,
                    skipped := 0 } }
    { id := "f", dbBasename := "f.db", pid := 99,
      owner := some { ownerToken := "other" } }
    (by decide) (by decide) (by decide)
  exact ⟨h.1.trans (by decide), h.2.2.1⟩

/-- Counterexample for C3: a successful spawn does not clear the failure
counter.  With a failure recorded for `/c/a.db` at t=0 and a successful
spawn at t=20000 (pid 42 alive past the fast-exit window, counted as
spawned), the failure entry is still present afterwards. -/
theorem C3_counterexample :
    (ensureSpawnedForDb exCfg exSuccessEnv "/c/a.db"
        exFailState).1.counters.spawned = 1 ∧
    alookup (ensureSpawnedForDb exCfg exSuccessEnv "/c/a.db"
        exFailState).1.failures "/c/a.db" =
      some { lastFailAtMs := 0, failCount := 1 } := by
  constructor
  · decide
  · decide

/-- C3 (amended): for a present file with no live running record, the
spawn attempt is skipped exactly when a failure for that path is younger
than `RESPAWN_BACKOFF_MS`; a spawn error and a fast exit both stamp
`lastFailAtMs := now` and bump `failCount`; a successful spawn leaves the
failure map unchanged (the counter is never cleared). -/
theorem C3_backoff (cfg : OrchCfg) (env : SpawnEnv) (db : String)
    (st : OrchState)
    (hfile : env.fileIsFile = true)
    (hnorun : alookup st.running db = none) :
    (shouldThrottle st.failures env.now db = true ↔
      ∃ f, alookup st.failures db = some f ∧
        env.now - f.lastFailAtMs < RESPAWN_BACKOFF_MS) ∧
    (shouldThrottle st.failures env.now db = true →
      ensureSpawnedForDb cfg env db st =
        ({ st with counters := { st.counters with
            skipped := st.counters.skipped + 1 } }, [])) ∧
    (shouldThrottle st.failures env.now db = false →
      env.chosen.isSome = true → env.driverImplemented = true →
      env.spawnResult = none →
      alookup (ensureSpawnedForDb cfg env db st).1.failures db =
        some { lastFailAtMs := env.now,
               failCount :=
                 match alookup st.failures db with
                 | none => 1
                 | some f => f.failCount + 1 }) ∧
    (shouldThrottle st.failures env.now db = false →
      env.chosen.isSome = true → env.driverImplemented = true →
      env.spawnResult.isSome = true → env.fastExitAlive = false →
      alookup (ensureSpawnedForDb cfg env db st).1.failures db =
        some { lastFailAtMs := env.now,
               failCount :=
                 match alookup st.failures db with
                 | none => 1
                 | some f => f.failCount + 1 }) ∧
    (env.spawnResult.isSome = true → env.fastExitAlive = true →
      (ensureSpawnedForDb cfg env db st).1.failures = st.failures) := by
  have hnote : alookup (noteFailure st.failures env.now db) db =
      some { lastFailAtMs := env.now,
             failCount :=
               match alookup st.failures db with
               | none => 1
               | some f => f.failCount + 1 } := by
    unfold noteFailure
    cases h : alookup st.failures db with
    | none => simp [alookup_aset]
    | some f => simp [alookup_aset]
  refine ⟨?_, ?_, ?_, ?_, ?_⟩
  · unfold shouldThrottle
    cases h : alookup st.failures db with
    | none => simp
    | some f => simp [h]
  · intro hth
    simp [ensureSpawnedForDb, hfile, hnorun, spawnFreshForDb, hth]
  · intro hth hch himpl hsp
    rcases Option.isSome_iff_exists.mp hch with ⟨k, hk⟩
    simp [ensureSpawnedForDb, hfile, hnorun, spawnFreshForDb, hth, hk,
      himpl, hsp, hnote]
  · intro hth hch himpl hsp hfa
    rcases Option.isSome_iff_exists.mp hch with ⟨k, hk⟩
    rcases Option.isSome_iff_exists.mp hsp with ⟨pid, hpid⟩
    simp [ensureSpawnedForDb, hfile, hnorun, spawnFreshForDb, hth, hk,
      himpl, hpid, hfa, hnote]
  · intro hsp hfa
    rcases Option.isSome_iff_exists.mp hsp with ⟨pid, hpid⟩
    by_cases hth : shouldThrottle st.failures env.now db
    · simp [ensureSpawnedForDb, hfile, hnorun, spawnFreshForDb, hth]
    · cases hk : env.chosen with
      | none =>
          simp [ensureSpawnedForDb, hfile, hnorun, spawnFreshForDb, hth, hk]
      | some k =>
          by_cases himpl : env.driverImplemented = true
          · simp [ensureSpawnedForDb, hfile, hnorun, spawnFreshForDb,
              hth, hk, himpl, hpid, hfa]
          · simp [ensureSpawnedForDb, hfile, hnorun, spawnFreshForDb, hth,
              hk, himpl]

/-- Witness for C3: a spawn error for `/c/a.db` with no prior failure
stamps `lastFailAtMs := 300` with count 1. -/
theorem C3_backoff_witness :
    alookup (ensureSpawnedForDb exCfg
        { exSuccessEnv with now := 300, spawnResult := none }
        "/c/a.db"
        { exFailState with failures := [] }).1.failures "/c/a.db" =
      some { lastFailAtMs := 300, failCount := 1 } := by
  have h := (C3_backoff exCfg
    { exSuccessEnv with now := 300, spawnResult := none } "/c/a.db"
    { exFailState with failures := [] }
    (by decide) (by decide)).2.2.1 (by decide) (by decide) (by decide)
    (by decide)
  simpa using h

/-- Appending ".tmp" changes the path. -/
theorem append_tmp_ne (p : String) : p ++ ".tmp" ≠ p := by
  intro h
  have hlen := congrArg String.length h
  rw [String.length_append] at hlen
  have h4 : (".tmp" : String).length = 4 := by decide
  omega

/-- Counterexample for C5: the spawn generator writes the context
manifest for `sess/app.db.context.json` by a single direct write at the
final path; there is no tmp write and no rename in its effect trace. -/
theorem C5_counterexample :
    spawnContextWriteOps "sess/app.db.context.json" "ctx" =
      [Effect.mkdirp "sess",
       Effect.writeFile "sess/app.db.context.json" "ctx"] ∧
    (∀ e ∈ spawnContextWriteOps "sess/app.db.context.json" "ctx",
      isRenameEffect e = false) ∧
    effectWritesAt "sess/app.db.context.json"
      (Effect.writeFile "sess/app.db.context.json" "ctx") = true := by
  refine ⟨by decide, by decide, by decide⟩

/-- C5 (amended): the orchestrator's `writeSpawnedRecord` is atomic (tmp
write, then rename; the final path is only ever the target of the
rename), but the spawn generator writes the context manifest directly at
the final path after ensuring the parent directory, with no rename. -/
theorem C5_context_write (p c : String) :
    writeSpawnedRecordOps p c =
      [Effect.writeFile (p ++ ".tmp") c,
       Effect.renameFile (p ++ ".tmp") p] ∧
    (∀ e ∈ writeSpawnedRecordOps p c, effectWritesAt p e = false) ∧
    spawnContextWriteOps p c =
      ensureParentDirOps p ++ [Effect.writeFile p c] ∧
    (∀ e ∈ spawnContextWriteOps p c, isRenameEffect e = false) ∧
    effectWritesAt p (Effect.writeFile p c) = true := by
  refine ⟨rfl, ?_, rfl, ?_, by simp [effectWritesAt]⟩
  · intro e he
    rcases List.mem_cons.mp he with rfl | he
    · simp [effectWritesAt, append_tmp_ne p]
    · rcases List.mem_cons.mp he with rfl | he
      · rfl
      · cases he
  · intro e he
    rcases List.mem_append.mp he with he | he
    · unfold ensureParentDirOps at he
      by_cases hd : dirnameOf p ≠ "" ∧ dirnameOf p ≠ "." ∧ dirnameOf p ≠ "/"
      · rw [if_pos hd] at he
        rcases List.mem_cons.mp he with rfl | he
        · rfl
        · cases he
      · rw [if_neg hd] at he
        cases he
    · rcases List.mem_cons.mp he with rfl | he
      · rfl
      · cases he

/-- Witness for C5: the record writer touches `s/a.json` only through the
tmp-and-rename pair and never writes the final path directly. -/
theorem C5_context_write_witness :
    writeSpawnedRecordOps "s/a.json" "x" =
      [Effect.writeFile "s/a.json.tmp" "x",
       Effect.renameFile "s/a.json.tmp" "s/a.json"] ∧
    effectWritesAt "s/a.json"
      (Effect.writeFile ("s/a.json" ++ ".tmp") "x") = false := by
  have h := C5_context_write "s/a.json" "x"
  refine ⟨h.1.trans (by decide), ?_⟩
  exact h.2.1 _ (by rw [h.1]; exact List.mem_cons_self _ _)

/-- The fuelled free-port loop returns the least unused port at or above
its start whenever some port within fuel reach is unused. -/
theorem firstFreeAux_spec (used : List Int) :
    ∀ (fuel : Nat) (port : Int),
      (∃ j : Int, 0 ≤ j ∧ j < (fuel : Int) ∧ port + j ∉ used) →
      firstFreeAux used fuel port ∉ used ∧
      port ≤ firstFreeAux used fuel port ∧
      ∀ q, port ≤ q → q < firstFreeAux used fuel port → q ∈ used := by
  intro fuel
  induction fuel with
  | zero =>
      intro port h
      rcases h with ⟨j, h0, hj, _⟩
      exfalso
      omega
  | succ n ih =>
      intro port h
      by_cases hp : port ∈ used
      · have h2 : ∃ j : Int, 0 ≤ j ∧ j < (n : Int) ∧ (port + 1) + j ∉ used
          := by
          rcases h with ⟨j, h0, hj, hnot⟩
          have hjne : j ≠ 0 := by
            intro hj0
            rw [hj0, add_zero] at hnot
            exact hnot hp
          refine ⟨j - 1, by omega, by push_cast at hj ⊢; omega, ?_⟩
          have : port + 1 + (j - 1) = port + j := by ring
          rw [this]
          exact hnot
        have h3 := ih (port + 1) h2
        simp only [firstFreeAux, if_pos hp]
        refine ⟨h3.1, le_trans (by omega) h3.2.1, ?_⟩
        intro q hq1 hq2
        by_cases hq : q = port
        · exact hq ▸ hp
        · exact h3.2.2 q (by omega) hq2
      · simp only [firstFreeAux, if_neg hp]
        exact ⟨hp, le_refl _, fun q hq1 hq2 => absurd hq2 (by omega)⟩

/-- Pigeonhole: within `used.length + 1` consecutive ports starting at
`port`, at least one is unused. -/
theorem exists_free_port (used : List Int) (port : Int) :
    ∃ j : Int, 0 ≤ j ∧ j < (used.length : Int) + 1 ∧ port + j ∉ used := by
  by_contra hcon
  push_neg at hcon
  have hmem : ∀ j : Nat, j < used.length + 1 → port + (j : Int) ∈ used := by
    intro j hj
    exact hcon (j : Int) (by positivity) (by omega)
  have hnodup : ((List.range (used.length + 1)).map
      (fun j : Nat => port + (j : Int))).Nodup := by
    refine List.Nodup.map ?_ (List.nodup_range _)
    intro a b hab
    have hab2 : port + (a : Int) = port + (b : Int) := hab
    omega
  have hsub : ((List.range (used.length + 1)).map
      (fun j : Nat => port + (j : Int))).toFinset ⊆ used.toFinset := by
    intro x hx
    rw [List.mem_toFinset] at hx ⊢
    rcases List.mem_map.mp hx with ⟨j, hj, rfl⟩
    exact hmem j (List.mem_range.mp hj)
  have hcard1 := List.toFinset_card_of_nodup hnodup
  have hcard2 := List.toFinset_card_le used
  have hle := Finset.card_le_card hsub
  rw [hcard1] at hle
  simp only [List.length_map, List.length_range] at hle
  omega

/-- Ports assigned down the spawn generator: each attempt gets the start
plus the number of earlier successful spawns. -/
theorem spawnPorts_get? (outcomes : List Bool) :
    ∀ (start : Int) (i : Nat), i < outcomes.length →
      (spawnPorts start outcomes).get? i =
        some (start + ((outcomes.take i).count true : Int)) := by
  induction outcomes with
  | nil =>
      intro start i h
      exact absurd h (by simp)
  | cons ok rest ih =>
      intro start i h
      cases i with
      | zero => simp [spawnPorts]
      | succ n =>
          have h2 : n < rest.length := by simpa using h
          show (spawnPorts (if ok then start + 1 else start) rest).get? n = _
          rw [ih _ n h2]
          cases ok
          · simp [List.count_cons]
          · simp [List.count_cons]
            ring

/-- Counterexample for C6: live ledger records hold ports 3000 and 3002;
`pickNextPortStart` starts the pass at 3001, the first spawned child gets
3001, but the second gets 3002 although a live record uses it. -/
theorem C6_counterexample :
    pickNextPortStart 3000 (fun _ => true)
        [{ port := 3000, pid := 10 }, { port := 3002, pid := 11 }] = 3001 ∧
    spawnPorts 3001 [true, true] = [3001, 3002] ∧
    (3002 : Int) ∈ usedLivePorts (fun _ => true)
        [{ port := 3000, pid := 10 }, { port := 3002, pid := 11 }] := by
  refine ⟨by decide, by decide, by decide⟩

/-- C6 (amended): `pickNextPortStart` returns the least port at or above
`portStart` not used by a live ledger record, and that port is handed to
the first spawn of the pass; each later attempt is offered the start plus
the number of earlier successful spawns, with no further check against
the live records. -/
theorem C6_port_allocation (desired : Int) (aliveNow : Int → Bool)
    (ledger : List LedgerListen) (outcomes : List Bool) :
    (pickNextPortStart desired aliveNow ledger ∉
        usedLivePorts aliveNow ledger ∧
     desired ≤ pickNextPortStart desired aliveNow ledger ∧
     (∀ q, desired ≤ q → q < pickNextPortStart desired aliveNow ledger →
        q ∈ usedLivePorts aliveNow ledger)) ∧
    (∀ i, i < outcomes.length →
      (spawnPorts (pickNextPortStart desired aliveNow ledger)
          outcomes).get? i =
        some (pickNextPortStart desired aliveNow ledger +
          ((outcomes.take i).count true : Int))) := by
  constructor
  · exact firstFreeAux_spec (usedLivePorts aliveNow ledger)
      ((usedLivePorts aliveNow ledger).length + 1) desired
      (by
        rcases exists_free_port (usedLivePorts aliveNow ledger) desired
          with ⟨j, h0, hj, hnot⟩
        exact ⟨j, h0, by push_cast; omega, hnot⟩)
  · intro i h
    exact spawnPorts_get? outcomes _ i h

/-- Witness for C6: with live ports 3000 and 3002 and desired start 3000,
the first assigned port is 3001 and it is free. -/
theorem C6_port_allocation_witness :
    (spawnPorts (pickNextPortStart 3000 (fun _ => true)
        [{ port := 3000, pid := 10 }, { port := 3002, pid := 11 }])
        [true, true]).get? 0 = some 3001 ∧
    pickNextPortStart 3000 (fun _ => true)
        [{ port := 3000, pid := 10 }, { port := 3002, pid := 11 }] ∉
      usedLivePorts (fun _ => true)
        [{ port := 3000, pid := 10 }, { port := 3002, pid := 11 }] := by
  have h := C6_port_allocation 3000 (fun _ => true)
    [{ port := 3000, pid := 10 }, { port := 3002, pid := 11 }] [true, true]
  refine ⟨(h.2 0 (by decide)).trans (by decide), h.1.1⟩

/-- C7: the scan yields exactly one item for every `*.context.json` file
under the root; a file with invalid JSON or a missing or non-positive
`spawned.pid` contributes an error item naming that file; and the scan
distributes over concatenation of the file list, so one bad file never
aborts the remaining files. -/
theorem C7_spawnedStates_scan (aliveNow : Int → Bool)
    (files : List ScanFile) :
    (∀ f ∈ files, strEndsWith f.path ".context.json" = true →
      ∃ it, handleContextFile aliveNow f = some it ∧
        scanItemPath it = f.path ∧ it ∈ spawnedStates aliveNow files) ∧
    (∀ f : ScanFile, strEndsWith f.path ".context.json" = true →
      (f.parsed = none ∨
       ∃ c, f.parsed = some c ∧
         (c.pidField = none ∨ ∃ pid, c.pidField = some pid ∧ pid ≤ 0)) →
      handleContextFile aliveNow f = some (ScanItem.errorItem f.path)) ∧
    (∀ pre post : List ScanFile,
      spawnedStates aliveNow (pre ++ post) =
        spawnedStates aliveNow pre ++ spawnedStates aliveNow post) := by
  refine ⟨?_, ?_, ?_⟩
  · intro f hf hend
    have hsome : ∃ it, handleContextFile aliveNow f = some it ∧
        scanItemPath it = f.path := by
      cases hp : f.parsed with
      | none =>
          exact ⟨ScanItem.errorItem f.path,
            by simp [handleContextFile, hend, hp], rfl⟩
      | some c =>
          cases hpf : c.pidField with
          | none =>
              exact ⟨ScanItem.errorItem f.path,
                by simp [handleContextFile, hend, hp, hpf], rfl⟩
          | some pid =>
              by_cases hpid : pid ≤ 0
              · exact ⟨ScanItem.errorItem f.path,
                  by simp [handleContextFile, hend, hp, hpf, hpid], rfl⟩
              · exact ⟨ScanItem.entry f.path pid (aliveNow pid),
                  by simp [handleContextFile, hend, hp, hpf, hpid], rfl⟩
    rcases hsome with ⟨it, hit, hpath⟩
    exact ⟨it, hit, hpath,
      List.mem_filterMap.mpr ⟨f, hf, hit⟩⟩
  · intro f hend hbad
    rcases hbad with hnone | ⟨c, hc, hbad2⟩
    · simp [handleContextFile, hend, hnone]
    · rcases hbad2 with hnone | ⟨pid, hpid, hle⟩
      · simp [handleContextFile, hend, hc, hnone]
      · simp [handleContextFile, hend, hc, hpid, hle]
  · intro pre post
    exact List.filterMap_append pre post _

/-- Witness for C7: a scan over a good file, an invalid-JSON file and a
second good file yields the two entries, an error item for the bad file
in between, and does not stop at the bad file. -/
theorem C7_spawnedStates_scan_witness :
    spawnedStates (fun _ => true)
      [{ path := "s/a.db.context.json", parsed := some { pidField := some 5 } },
       { path := "s/bad.db.context.json", parsed := none },
       { path := "s/c.db.context.json", parsed := some { pidField := some 7 } }]
      =
      [ScanItem.entry "s/a.db.context.json" 5 true,
       ScanItem.errorItem "s/bad.db.context.json",
       ScanItem.entry "s/c.db.context.json" 7 true] ∧
    ScanItem.errorItem "s/bad.db.context.json" ∈
      spawnedStates (fun _ => true)
        [{ path := "s/a.db.context.json", parsed := some { pidField := some 5 } },
         { path := "s/bad.db.context.json", parsed := none },
         { path := "s/c.db.context.json", parsed := some { pidField := some 7 } }]
      := by
  have h := C7_spawnedStates_scan (fun _ => true)
    [{ path := "s/a.db.context.json", parsed := some { pidField := some 5 } },
     { path := "s/bad.db.context.json", parsed := none },
     { path := "s/c.db.context.json", parsed := some { pidField := some 7 } }]
  refine ⟨by decide, ?_⟩
  obtain ⟨it, hit, _, hmem⟩ := h.1
    { path := "s/bad.db.context.json", parsed := none }
    (by simp) (by decide)
  have heq : it = ScanItem.errorItem "s/bad.db.context.json" := by
    have h2 := h.2.1 { path := "s/bad.db.context.json", parsed := none }
      (by decide) (Or.inl rfl)
    rw [h2] at hit
    exact (Option.some.inj hit).symm
  exact heq ▸ hmem

/-- A dead poll index is below the iteration bound. -/
theorem firstDeadPollAux_lt (aliveAt : Nat → Bool) :
    ∀ (n start i : Nat),
      firstDeadPollAux aliveAt start n = some i → i < start + n := by
  intro n
  induction n with
  | zero => intro start i h; cases h
  | succ m ih =>
      intro start i h
      unfold firstDeadPollAux at h
      by_cases ha : aliveAt start = true
      · simp only [ha] at h
        have := ih (start + 1) i (by simpa using h)
        omega
      · have hb : (¬ aliveAt start) = true := by simp [ha]
        simp only [ha] at h
        simp at h
        omega

/-- C8: `killPID` returns without escalation when the pid is already gone
(both SIGTERM attempts fail: no SIGKILL, no sleeping); the liveness poll
is bounded by 20 iterations of 100 ms; a pid seen dead during the poll is
never escalated; a pid still alive after the full poll receives SIGKILL
on the group and, exactly when the group SIGKILL throws, on the pid; on
POSIX the group SIGTERM comes first and the pid SIGTERM is attempted only
when the group attempt throws. -/
theorem C8_killPID_contract (env : KillEnv) :
    (env.groupTermOk = false → env.pidTermOk = false →
      (∀ t, (t, Sig.sigkill) ∉ (killPID env).attempts) ∧
      (killPID env).sleptMs = 0) ∧
    ((killPID env).sleptMs ≤ KILL_POLL_SLEEP_MS * KILL_POLL_ITERS) ∧
    (∀ i, firstDeadPoll env.aliveAt KILL_POLL_ITERS = some i →
      ∀ t, (t, Sig.sigkill) ∉ (killPID env).attempts) ∧
    (env.isWindows = false → env.groupTermOk = true →
      (SigTarget.single, Sig.sigterm) ∉ (killPID env).attempts ∧
      (killPID env).attempts.head? = some (SigTarget.group, Sig.sigterm)) ∧
    (env.isWindows = false →
      (env.groupTermOk = true ∨ env.pidTermOk = true) →
      firstDeadPoll env.aliveAt KILL_POLL_ITERS = none →
      (killPID env).sleptMs = KILL_POLL_SLEEP_MS * KILL_POLL_ITERS ∧
      (SigTarget.group, Sig.sigkill) ∈ (killPID env).attempts ∧
      ((SigTarget.single, Sig.sigkill) ∈ (killPID env).attempts ↔
        env.groupKillOk = false)) := by
  refine ⟨?_, ?_, ?_, ?_, ?_⟩
  · intro h1 h2
    cases hw : env.isWindows
    · constructor
      · intro t
        simp [killPID, h1, h2, hw]
      · simp [killPID, h1, h2, hw]
    · constructor
      · intro t
        simp [killPID, h1, h2, hw]
      · simp [killPID, h1, h2, hw]
  · cases hfd : firstDeadPoll env.aliveAt KILL_POLL_ITERS with
    | some i =>
        have hi : i < 20 := by
          have h20 := firstDeadPollAux_lt env.aliveAt KILL_POLL_ITERS 0 i
            (by rw [firstDeadPoll] at hfd; exact hfd)
          simpa [KILL_POLL_ITERS] using h20
        rw [show KILL_POLL_ITERS = 20 from rfl] at hfd
        cases hw : env.isWindows <;>
          by_cases hg : env.groupTermOk <;>
            by_cases hp : env.pidTermOk <;>
              simp [killPID, hw, hg, hp, hfd, KILL_POLL_SLEEP_MS,
                KILL_POLL_ITERS] <;>
                omega
    | none =>
        rw [show KILL_POLL_ITERS = 20 from rfl] at hfd
        cases hw : env.isWindows <;>
          by_cases hg : env.groupTermOk <;>
            by_cases hp : env.pidTermOk <;>
              by_cases hk : env.groupKillOk <;>
                simp [killPID, hw, hg, hp, hk, hfd, KILL_POLL_SLEEP_MS,
                  KILL_POLL_ITERS]
  · intro i hfd t
    cases hw : env.isWindows <;>
      by_cases hg : env.groupTermOk <;>
        by_cases hp : env.pidTermOk <;>
          simp [killPID, hw, hg, hp, hfd]
  · intro hw hg
    constructor
    · cases hfd : firstDeadPoll env.aliveAt KILL_POLL_ITERS <;>
        by_cases hk : env.groupKillOk <;>
          simp [killPID, hw, hg, hk, hfd]
    · cases hfd : firstDeadPoll env.aliveAt KILL_POLL_ITERS <;>
        by_cases hk : env.groupKillOk <;>
          simp [killPID, hw, hg, hk, hfd]
  · intro hw hor hfd
    rw [show KILL_POLL_ITERS = 20 from rfl] at hfd
    by_cases hg : env.groupTermOk
    · by_cases hk : env.groupKillOk <;>
        simp [killPID, hw, hg, hk, hfd, KILL_POLL_SLEEP_MS, KILL_POLL_ITERS]
    · have hp : env.pidTermOk = true := by
        rcases hor with h | h
        · exact absurd h hg
        · exact h
      by_cases hk : env.groupKillOk <;>
        simp [killPID, hw, hg, hp, hk, hfd, KILL_POLL_SLEEP_MS,
          KILL_POLL_ITERS]

/-- Witness for C8: a pid alive through every poll, with a POSIX group
SIGTERM that succeeded and a group SIGKILL that throws, sleeps the full
2 s and is escalated on both the group and the pid; a gone pid (both
SIGTERM attempts throw) causes no escalation. -/
theorem C8_killPID_contract_witness :
    (killPID { isWindows := false, groupTermOk := true, pidTermOk := true,
               groupKillOk := false,
               aliveAt := fun _ => true }).sleptMs = 2000 ∧
    (SigTarget.single, Sig.sigkill) ∈
      (killPID { isWindows := false, groupTermOk := true, pidTermOk := true,
                 groupKillOk := false,
                 aliveAt := fun _ => true }).attempts ∧
    (∀ t, (t, Sig.sigkill) ∉
      (killPID { isWindows := false, groupTermOk := false,
                 pidTermOk := false, groupKillOk := true,
                 aliveAt := fun _ => false }).attempts) := by
  have h1 := (C8_killPID_contract
    { isWindows := false, groupTermOk := true, pidTermOk := true,
      groupKillOk := false, aliveAt := fun _ => true }).2.2.2.2
    rfl (Or.inl rfl) (by decide)
  have h2 := (C8_killPID_contract
    { isWindows := false, groupTermOk := false, pidTermOk := false,
      groupKillOk := true, aliveAt := fun _ => false }).1 rfl rfl
  exact ⟨h1.1.trans (by decide), h1.2.2.mpr rfl, h2.1⟩

/-- Counterexample for C10: a context file whose `session.sessionId`
field is present but empty does not decide the identity; the
`DB_YARD_SESSION_ID` environment tag is reported instead. -/
theorem C10_counterexample :
    tpSessionId (some { sessionId := some "", serviceId := some "svc" })
        (some "ENV") = "ENV" ∧
    ¬ ("ENV" : String) = "" := by
  exact ⟨by decide, by decide⟩

/-- C10 (amended): `taggedProcesses` reports the identity from the
context file whenever the field is present and non-empty — so rewriting
the context file changes the reported identity — and falls back to the
environment tags when the context is unreadable or the field is absent
or empty. -/
theorem C10_tagged_identity (context : Option TpCtxIds)
    (envSessionId envServiceId : Option String) :
    (∀ c s, context = some c → c.sessionId = some s → s ≠ "" →
      tpSessionId context envSessionId = s) ∧
    (∀ c s, context = some c → c.serviceId = some s → s ≠ "" →
      tpServiceId context envServiceId = s) ∧
    ((context.bind (fun c => c.sessionId) = none ∨
      context.bind (fun c => c.sessionId) = some "") →
      tpSessionId context envSessionId = envSessionId.getD "") ∧
    ((context.bind (fun c => c.serviceId) = none ∨
      context.bind (fun c => c.serviceId) = some "") →
      tpServiceId context envServiceId = envServiceId.getD "") := by
  refine ⟨?_, ?_, ?_, ?_⟩
  · rintro c s rfl hs hne
    simp [tpSessionId, tpPickId, hs, hne]
  · rintro c s rfl hs hne
    simp [tpServiceId, tpPickId, hs, hne]
  · intro hc
    rcases hc with hc | hc <;>
      cases henv : envSessionId <;>
        simp [tpSessionId, tpPickId, hc, henv]
  · intro hc
    rcases hc with hc | hc <;>
      cases henv : envServiceId <;>
        simp [tpServiceId, tpPickId, hc, henv]

/-- Witness for C10: a rewritten context carrying sessionId "S2" changes
the reported identity away from the env tag "S1"; with an unreadable
context the env tag "S1" is reported. -/
theorem C10_tagged_identity_witness :
    tpSessionId (some { sessionId := some "S2", serviceId := some "v" })
        (some "S1") = "S2" ∧
    tpSessionId none (some "S1") = "S1" := by
  have h := C10_tagged_identity
    (some { sessionId := some "S2", serviceId := some "v" })
    (some "S1") (some "S1")
  have h2 := C10_tagged_identity none (some "S1") (some "S1")
  exact ⟨h.1 _ "S2" rfl rfl (by decide),
    (h2.2.2.1 (Or.inl rfl)).trans (by decide)⟩

/-! Lemmas on the slash-collapsing normalizer, towards C9. -/

theorem collapseSlashes_cons_cons (c d : Char) (rest : List Char) :
    collapseSlashes (c :: d :: rest) =
      if c = '/' ∧ d = '/' then collapseSlashes (d :: rest)
      else c :: collapseSlashes (d :: rest) := rfl

theorem collapseSlashes_ne_nil (c : Char) (rest : List Char) :
    collapseSlashes (c :: rest) ≠ [] := by
  induction rest generalizing c with
  | nil => exact List.cons_ne_nil _ _
  | cons d r2 ih =>
      rw [collapseSlashes_cons_cons]
      by_cases h : c = '/' ∧ d = '/'
      · rw [if_pos h]
        exact ih d
      · rw [if_neg h]
        exact List.cons_ne_nil _ _

theorem head?_collapseSlashes (l : List Char) :
    (collapseSlashes l).head? = l.head? := by
  induction l using collapseSlashes.induct with
  | case1 => rfl
  | case2 c => rfl
  | case3 c d rest h ih =>
      rw [collapseSlashes_cons_cons, if_pos h, ih]
      rw [show c = '/' from h.1, show d = '/' from h.2]
      rfl
  | case4 c d rest h ih =>
      rw [collapseSlashes_cons_cons, if_neg h]
      rfl

theorem mem_collapseSlashes (l : List Char) :
    ∀ a ∈ collapseSlashes l, a ∈ l := by
  induction l using collapseSlashes.induct with
  | case1 => simp [collapseSlashes]
  | case2 c => simp [collapseSlashes]
  | case3 c d rest h ih =>
      intro a ha
      rw [collapseSlashes_cons_cons, if_pos h] at ha
      exact List.mem_cons_of_mem _ (ih a ha)
  | case4 c d rest h ih =>
      intro a ha
      rw [collapseSlashes_cons_cons, if_neg h] at ha
      rcases List.mem_cons.mp ha with rfl | ha
      · exact List.mem_cons_self _ _
      · exact List.mem_cons_of_mem _ (ih a ha)

theorem chain_collapseSlashes (l : List Char) :
    List.Chain' notDblSlash (collapseSlashes l) := by
  induction l using collapseSlashes.induct with
  | case1 => simp [collapseSlashes]
  | case2 c => simp [collapseSlashes]
  | case3 c d rest h ih =>
      rw [collapseSlashes_cons_cons, if_pos h]
      exact ih
  | case4 c d rest h ih =>
      rw [collapseSlashes_cons_cons, if_neg h]
      rw [List.chain'_cons']
      refine ⟨?_, ih⟩
      intro b hb
      rw [head?_collapseSlashes] at hb
      have hb2 : (d :: rest).head? = some b := hb
      have hbd : b = d := (Option.some.inj hb2).symm
      intro hab
      exact h ⟨hab.1, hbd ▸ hab.2⟩

theorem collapseSlashes_eq_self (l : List Char)
    (h : List.Chain' notDblSlash l) : collapseSlashes l = l := by
  induction l with
  | nil => rfl
  | cons c rest ih =>
      cases rest with
      | nil => rfl
      | cons d r2 =>
          have hcd : notDblSlash c d := (List.chain'_cons'.mp h).1 d rfl
          have htail := (List.chain'_cons'.mp h).2
          rw [collapseSlashes_cons_cons, if_neg hcd, ih htail]

theorem collapseSlashes_idem (l : List Char) :
    collapseSlashes (collapseSlashes l) = collapseSlashes l :=
  collapseSlashes_eq_self _ (chain_collapseSlashes l)

theorem getLast?_cons_of_ne_nil (a : Char) (l : List Char) (h : l ≠ []) :
    (a :: l).getLast? = l.getLast? := by
  cases l with
  | nil => exact absurd rfl h
  | cons y r => exact List.getLast?_cons_cons

theorem getLast?_collapseSlashes (l : List Char) :
    (collapseSlashes l).getLast? = l.getLast? := by
  induction l using collapseSlashes.induct with
  | case1 => rfl
  | case2 c => rfl
  | case3 c d rest h ih =>
      rw [collapseSlashes_cons_cons, if_pos h, ih, List.getLast?_cons_cons]
  | case4 c d rest h ih =>
      rw [collapseSlashes_cons_cons, if_neg h,
        getLast?_cons_of_ne_nil _ _ (collapseSlashes_ne_nil d rest), ih,
        List.getLast?_cons_cons]

theorem head?_dropWhile_not (p : Char → Bool) (l : List Char) :
    ∀ a, (l.dropWhile p).head? = some a → p a = false := by
  induction l with
  | nil => intro a h; cases h
  | cons x r ih =>
      intro a h
      rw [List.dropWhile_cons] at h
      by_cases hx : p x = true
      · rw [if_pos hx] at h
        exact ih a h
      · rw [if_neg hx] at h
        have hax : a = x := (Option.some.inj h).symm
        rw [hax]
        simpa using hx

theorem dropWhile_eq_self_of_head (p : Char → Bool) (l : List Char)
    (h : ∀ a, l.head? = some a → p a = false) : l.dropWhile p = l := by
  cases l with
  | nil => rfl
  | cons x r =>
      rw [List.dropWhile_cons]
      have := h x rfl
      simp [this]

theorem trimChars_eq_self (l : List Char)
    (hhead : ∀ a, l.head? = some a → isJsWs a = false)
    (hlast : ∀ a, l.getLast? = some a → isJsWs a = false) :
    trimChars l = l := by
  unfold trimChars
  rw [dropWhile_eq_self_of_head _ _ hhead]
  rw [dropWhile_eq_self_of_head _ _ (by
    intro a ha
    rw [List.head?_reverse] at ha
    exact hlast a ha)]
  exact List.reverse_reverse l

theorem trimChars_getLast?_not_ws (l : List Char) :
    ∀ a, (trimChars l).getLast? = some a → isJsWs a = false := by
  intro a ha
  unfold trimChars at ha
  rw [List.getLast?_reverse] at ha
  exact head?_dropWhile_not _ _ a ha

theorem trimChars_subset (l : List Char) :
    ∀ a ∈ trimChars l, a ∈ l := by
  intro a ha
  unfold trimChars at ha
  rw [List.mem_reverse] at ha
  have h1 := List.Sublist.subset (List.dropWhile_sublist _) ha
  rw [List.mem_reverse] at h1
  exact List.Sublist.subset (List.dropWhile_sublist _) h1

theorem stripLeadingDotSlash_subset (l : List Char) :
    ∀ a ∈ stripLeadingDotSlash l, a ∈ l := by
  intro a ha
  unfold stripLeadingDotSlash at ha
  split at ha
  · exact List.mem_cons_of_mem _ (List.mem_cons_of_mem _ ha)
  · exact ha

theorem stripLeadingDotSlash_slash (t : List Char) :
    stripLeadingDotSlash ('/' :: t) = '/' :: t := rfl

theorem stripLeadingDotSlash_of_head_slash (l : List Char)
    (h : l.head? = some '/') : stripLeadingDotSlash l = l := by
  cases l with
  | nil => cases h
  | cons x r =>
      have hx : x = '/' := Option.some.inj h
      rw [hx]
      exact stripLeadingDotSlash_slash r

theorem replaceBackslashes_eq_self (l : List Char)
    (h : ∀ a ∈ l, ¬ a = '\\') : replaceBackslashes l = l := by
  induction l with
  | nil => rfl
  | cons x r ih =>
      have hx := h x (List.mem_cons_self _ _)
      unfold replaceBackslashes at ih ⊢
      rw [List.map_cons, if_neg hx,
        ih (fun a ha => h a (List.mem_cons_of_mem _ ha))]

theorem replaceBackslashes_no_backslash (l : List Char) :
    ∀ a ∈ replaceBackslashes l, ¬ a = '\\' := by
  intro a ha
  rcases List.mem_map.mp ha with ⟨b, _, rfl⟩
  by_cases hb : b = '\\'
  · simp [hb]
  · simp [hb]

/-- Every output of `proxyPrefixFromRel` is the collapse of a slash-headed
character list whose body has no backslash and no trailing whitespace. -/
theorem proxyPrefix_shape (rel : String) :
    ∃ body : List Char,
      proxyPrefixFromRel rel = String.mk (collapseSlashes ('/' :: body)) ∧
      (∀ a ∈ body, ¬ a = '\\') ∧
      (∀ a, body.getLast? = some a → isJsWs a = false) := by
  have hdef : proxyPrefixFromRel rel =
      match trimChars (stripLeadingDotSlash (collapseSlashes
        (replaceBackslashes (stripOneExt rel).data))) with
      | [] => "/"
      | c :: rest =>
          if c = '/' then String.mk (collapseSlashes ('/' :: rest))
          else String.mk (collapseSlashes ('/' :: c :: rest)) := rfl
  have hnb : ∀ a ∈ trimChars (stripLeadingDotSlash (collapseSlashes
      (replaceBackslashes (stripOneExt rel).data))), ¬ a = '\\' := by
    intro a ha
    have h1 := trimChars_subset _ a ha
    have h2 := stripLeadingDotSlash_subset _ a h1
    have h3 := mem_collapseSlashes _ a h2
    exact replaceBackslashes_no_backslash _ a h3
  have hlastws := trimChars_getLast?_not_ws (stripLeadingDotSlash
    (collapseSlashes (replaceBackslashes (stripOneExt rel).data)))
  cases hcl : trimChars (stripLeadingDotSlash (collapseSlashes
      (replaceBackslashes (stripOneExt rel).data))) with
  | nil =>
      refine ⟨[], ?_, by simp, by intro a ha; cases ha⟩
      rw [hdef, hcl]
      rfl
  | cons c rest =>
      by_cases hc : c = '/'
      · subst hc
        refine ⟨rest, ?_, ?_, ?_⟩
        · rw [hdef, hcl]
          rfl
        · intro a ha
          exact hnb a (hcl ▸ List.mem_cons_of_mem _ ha)
        · intro a ha
          cases rest with
          | nil => cases ha
          | cons y r2 =>
              refine hlastws a ?_
              rw [hcl, List.getLast?_cons_cons]
              exact ha
      · refine ⟨c :: rest, ?_, ?_, ?_⟩
        · rw [hdef, hcl]
          show (if c = '/' then String.mk (collapseSlashes ('/' :: rest))
                else String.mk (collapseSlashes ('/' :: c :: rest))) =
            String.mk (collapseSlashes ('/' :: c :: rest))
          rw [if_neg hc]
        · intro a ha
          exact hnb a (hcl ▸ ha)
        · intro a ha
          exact hlastws a (hcl ▸ ha)

/-- Counterexample for C9: one application of `proxyPrefixFromRel` strips
one extension, so for the double-extension relative path
"northwind.sqlite.db" (a default watch-glob shape) the output
"/northwind.sqlite" maps to "/northwind" on a second application. -/
theorem C9_counterexample :
    proxyPrefixFromRel "northwind.sqlite.db" = "/northwind.sqlite" ∧
    proxyPrefixFromRel (proxyPrefixFromRel "northwind.sqlite.db") =
      "/northwind" ∧
    proxyPrefixFromRel (proxyPrefixFromRel "northwind.sqlite.db") ≠
      proxyPrefixFromRel "northwind.sqlite.db" := by
  refine ⟨by decide, by decide, by decide⟩

/-- C9 (amended): the output of `proxyPrefixFromRel` is a fixed point of
the function whenever it carries no further extension (in particular for
single-extension inputs); otherwise each application strips one more
extension. -/
theorem C9_proxy_fixed_point (rel : String)
    (h : extname (proxyPrefixFromRel rel) = "") :
    proxyPrefixFromRel (proxyPrefixFromRel rel) =
      proxyPrefixFromRel rel := by
  obtain ⟨body, hshape, hnb, hlast⟩ := proxyPrefix_shape rel
  rw [hshape] at h ⊢
  set m := collapseSlashes ('/' :: body) with hm
  have hmne : m ≠ [] := by
    rw [hm]
    exact collapseSlashes_ne_nil _ _
  have hmhd : m.head? = some '/' := by
    rw [hm, head?_collapseSlashes]
    rfl
  have hext : extnameChars m = [] := by
    have h2 := congrArg String.data h
    exact h2
  have hstrip : stripOneExt (String.mk m) = String.mk m := by
    unfold stripOneExt extname
    rw [show (String.mk m).data = m from rfl, hext]
    rfl
  have hnoback : ∀ a ∈ m, ¬ a = '\\' := by
    intro a ha
    have h3 := mem_collapseSlashes _ a (hm ▸ ha)
    rcases List.mem_cons.mp h3 with rfl | hb
    · decide
    · exact hnb a hb
  have hrep : replaceBackslashes m = m :=
    replaceBackslashes_eq_self _ hnoback
  have hcol : collapseSlashes m = m := by
    rw [hm]
    exact collapseSlashes_idem _
  have hstripdot : stripLeadingDotSlash m = m :=
    stripLeadingDotSlash_of_head_slash m hmhd
  have hmlast : ∀ a, m.getLast? = some a → isJsWs a = false := by
    intro a ha
    rw [hm, getLast?_collapseSlashes] at ha
    cases body with
    | nil =>
        have : a = '/' := by
          have := Option.some.inj ha
          exact this.symm
        rw [this]
        decide
    | cons b r =>
        rw [List.getLast?_cons_cons] at ha
        exact hlast a ha
  have hmheadws : ∀ a, m.head? = some a → isJsWs a = false := by
    intro a ha
    rw [hmhd] at ha
    have : a = '/' := (Option.some.inj ha).symm
    rw [this]
    decide
  have htrim : trimChars m = m := trimChars_eq_self m hmheadws hmlast
  have hdef : proxyPrefixFromRel (String.mk m) =
      match trimChars (stripLeadingDotSlash (collapseSlashes
        (replaceBackslashes (stripOneExt (String.mk m)).data))) with
      | [] => "/"
      | c :: rest =>
          if c = '/' then String.mk (collapseSlashes ('/' :: rest))
          else String.mk (collapseSlashes ('/' :: c :: rest)) := rfl
  obtain ⟨t, hmt⟩ : ∃ t, m = '/' :: t := by
    cases hmc : m with
    | nil => exact absurd hmc hmne
    | cons c t =>
        have hc : c = '/' := by
          rw [hmc] at hmhd
          exact Option.some.inj hmhd
        exact ⟨t, by rw [hc]⟩
  rw [hdef, hstrip, show (String.mk m).data = m from rfl, hrep, hcol,
    hstripdot, htrim, hmt]
  have hcol2 : collapseSlashes ('/' :: t) = '/' :: t := by
    rw [← hmt, hcol]
  simp [hcol2]

/-- Witness for C9: the single-extension path "app.db" maps to "/app",
which has no extension and is a fixed point. -/
theorem C9_proxy_fixed_point_witness :
    extname (proxyPrefixFromRel "app.db") = "" ∧
    proxyPrefixFromRel (proxyPrefixFromRel "app.db") =
      proxyPrefixFromRel "app.db" := by
  exact ⟨by decide, C9_proxy_fixed_point "app.db" (by decide)⟩

end DbYard
